import Mathlib

/-!
Shallow embedding of `src/main.py` of the string-analyzer service.

Pure computations (SHA-256 hashing, string analysis, filter matching, the
natural-language query interpreter) are translated to Lean functions over
`List Char` / `Nat`.  The SQLite table `strings` (keyed by the primary key
`id`) is modelled as a list of records, with each HTTP handler becoming an
explicit state-passing function returning either an HTTP error status or a
result, paired with the resulting store.  Machine 32-bit arithmetic inside
SHA-256 is `Nat` arithmetic taken `% 2^32`.
-/

namespace StringAnalyzer

/-! ### SHA-256 (`hashlib.sha256(value.encode("utf-8")).hexdigest()`) -/

/-- UTF-8 encoding of one character, as byte values. -/
def utf8EncodeChar (c : Char) : List Nat :=
  let n := c.toNat
  if n < 128 then [n]
  else if n < 2048 then [192 + n / 64, 128 + n % 64]
  else if n < 65536 then [224 + n / 4096, 128 + (n / 64) % 64, 128 + n % 64]
  else [240 + n / 262144, 128 + (n / 4096) % 64, 128 + (n / 64) % 64, 128 + n % 64]

/-- `value.encode("utf-8")` as a list of byte values. -/
def utf8Bytes (s : String) : List Nat :=
  s.data.flatMap utf8EncodeChar

/-- Truncating addition on 32-bit words. -/
def add32 (a b : Nat) : Nat := (a + b) % 4294967296

/-- Right rotation of a 32-bit word by `n` bits. -/
def rotr32 (n x : Nat) : Nat := (x >>> n) ||| ((x % 2 ^ n) <<< (32 - n))

/-- Bitwise complement within 32 bits. -/
def not32 (x : Nat) : Nat := x ^^^ 4294967295

def ch32 (x y z : Nat) : Nat := (x &&& y) ^^^ (not32 x &&& z)

def maj32 (x y z : Nat) : Nat := (x &&& y) ^^^ (x &&& z) ^^^ (y &&& z)

def bigSigma0 (x : Nat) : Nat := rotr32 2 x ^^^ rotr32 13 x ^^^ rotr32 22 x

def bigSigma1 (x : Nat) : Nat := rotr32 6 x ^^^ rotr32 11 x ^^^ rotr32 25 x

def smallSigma0 (x : Nat) : Nat := rotr32 7 x ^^^ rotr32 18 x ^^^ (x >>> 3)

def smallSigma1 (x : Nat) : Nat := rotr32 17 x ^^^ rotr32 19 x ^^^ (x >>> 10)

/-- The 64 SHA-256 round constants (FIPS 180-4), written in decimal. -/
def sha256K : List Nat :=
  [1116352408, 1899447441, 3049323471, 3921009573, 961987163, 1508970993,
   2453635748, 2870763221, 3624381080, 310598401, 607225278, 1426881987,
   1925078388, 2162078206, 2614888103, 3248222580, 3835390401, 4022224774,
   264347078, 604807628, 770255983, 1249150122, 1555081692, 1996064986,
   2554220882, 2821834349, 2952996808, 3210313671, 3336571891, 3584528711,
   113926993, 338241895, 666307205, 773529912, 1294757372, 1396182291,
   1695183700, 1986661051, 2177026350, 2456956037, 2730485921, 2820302411,
   3259730800, 3345764771, 3516065817, 3600352804, 4094571909, 275423344,
   430227734, 506948616, 659060556, 883997877, 958139571, 1322822218,
   1537002063, 1747873779, 1955562222, 2024104815, 2227730452, 2361852424,
   2428436474, 2756734187, 3204031479, 3329325298]

/-- The initial SHA-256 hash state (FIPS 180-4), written in decimal. -/
def sha256H0 : List Nat :=
  [1779033703, 3144134277, 1013904242, 2773480762,
   1359893119, 2600822924, 528734635, 1541459225]

/-- Big-endian 8-byte encoding of the message bit length. -/
def lenBytes64 (n : Nat) : List Nat :=
  [(n >>> 56) % 256, (n >>> 48) % 256, (n >>> 40) % 256, (n >>> 32) % 256,
   (n >>> 24) % 256, (n >>> 16) % 256, (n >>> 8) % 256, n % 256]

/-- SHA-256 padding: a `0x80` byte, zero bytes to 56 mod 64, then the bit length. -/
def padBytes (msg : List Nat) : List Nat :=
  let L := msg.length
  let zeros := (119 - L % 64) % 64
  msg ++ [128] ++ List.replicate zeros 0 ++ lenBytes64 (8 * L)

/-- Group bytes four at a time into big-endian 32-bit words. -/
def wordsOfBytes : List Nat → List Nat
  | a :: b :: c :: d :: rest => (((a * 256 + b) * 256 + c) * 256 + d) :: wordsOfBytes rest
  | _ => []

/-- Split a byte list into `n` chunks of 64 bytes. -/
def chunksOf64 : Nat → List Nat → List (List Nat)
  | 0, _ => []
  | n + 1, l => l.take 64 :: chunksOf64 n (l.drop 64)

/-- Extend the 16 message words of a block to the 64-word schedule. -/
def sha256Schedule (ws : List Nat) : List Nat :=
  (List.range 48).foldl
    (fun acc i =>
      let t := i + 16
      acc ++ [add32 (add32 (smallSigma1 (acc.getD (t - 2) 0)) (acc.getD (t - 7) 0))
                    (add32 (smallSigma0 (acc.getD (t - 15) 0)) (acc.getD (t - 16) 0))])
    ws

/-- The eight working registers of the compression loop. -/
structure Regs where
  a : Nat
  b : Nat
  c : Nat
  d : Nat
  e : Nat
  f : Nat
  g : Nat
  h : Nat

/-- One round of the SHA-256 compression loop. -/
def sha256Round (r : Regs) (kw : Nat × Nat) : Regs :=
  let t1 := add32 r.h (add32 (bigSigma1 r.e) (add32 (ch32 r.e r.f r.g) (add32 kw.1 kw.2)))
  let t2 := add32 (bigSigma0 r.a) (maj32 r.a r.b r.c)
  ⟨add32 t1 t2, r.a, r.b, r.c, add32 r.d t1, r.e, r.f, r.g⟩

/-- Compress one 16-word block into the running 8-word hash state. -/
def sha256Compress (hs : List Nat) (block : List Nat) : List Nat :=
  let ws := sha256Schedule block
  let init : Regs := ⟨hs.getD 0 0, hs.getD 1 0, hs.getD 2 0, hs.getD 3 0,
                      hs.getD 4 0, hs.getD 5 0, hs.getD 6 0, hs.getD 7 0⟩
  let r := (sha256K.zip ws).foldl sha256Round init
  [add32 (hs.getD 0 0) r.a, add32 (hs.getD 1 0) r.b, add32 (hs.getD 2 0) r.c,
   add32 (hs.getD 3 0) r.d, add32 (hs.getD 4 0) r.e, add32 (hs.getD 5 0) r.f,
   add32 (hs.getD 6 0) r.g, add32 (hs.getD 7 0) r.h]

/-- SHA-256 digest of a byte sequence, as eight 32-bit words. -/
def sha256Words (msg : List Nat) : List Nat :=
  let padded := padBytes msg
  (chunksOf64 (padded.length / 64) padded).foldl
    (fun hs blk => sha256Compress hs (wordsOfBytes blk)) sha256H0

/-- Lowercase hexadecimal digit. -/
def hexChar (n : Nat) : Char :=
  if n < 10 then Char.ofNat (48 + n) else Char.ofNat (87 + n)

/-- A 32-bit word as eight lowercase hex characters. -/
def wordHex (w : Nat) : List Char :=
  [hexChar ((w >>> 28) % 16), hexChar ((w >>> 24) % 16), hexChar ((w >>> 20) % 16),
   hexChar ((w >>> 16) % 16), hexChar ((w >>> 12) % 16), hexChar ((w >>> 8) % 16),
   hexChar ((w >>> 4) % 16), hexChar (w % 16)]

/-- `sha256_hash` from `main.py`: lowercase hex SHA-256 digest of the UTF-8 bytes. -/
def sha256_hash (value : String) : String :=
  ⟨(sha256Words (utf8Bytes value)).flatMap wordHex⟩

/-! ### String analysis (`is_palindrome`, `character_frequency_map`, `analyze_string`) -/

/-- The whitespace characters of Python's `str.isspace` (the set used by
`str.strip`, `str.split` and the regex class `\s` on `str` patterns). -/
def pyIsSpace (c : Char) : Bool :=
  ([9, 10, 11, 12, 13, 28, 29, 30, 31, 32, 133, 160, 5760,
    8192, 8193, 8194, 8195, 8196, 8197, 8198, 8199, 8200, 8201, 8202,
    8232, 8233, 8239, 8287, 12288] : List Nat).contains c.toNat

/-- Python's `value.strip()`: drop leading and trailing whitespace. -/
def pyStrip (s : String) : String :=
  ⟨(((s.data.dropWhile pyIsSpace).reverse).dropWhile pyIsSpace).reverse⟩

/-- Python's `value.lower()`, restricted to ASCII case mapping (every string the
service's spec examples and parsing rules involve is ASCII). -/
def pyLower (s : String) : String :=
  ⟨s.data.map Char.toLower⟩

/-- Python's `value.split()`: split on whitespace runs, discarding empty tokens. -/
def pySplit (s : String) : List String :=
  ((s.data.splitOnP pyIsSpace).filter (fun w => !w.isEmpty)).map (fun w => ⟨w⟩)

/-- `is_palindrome` from `main.py`: `re.sub(r"\s+", "", value).lower()` (which
removes every whitespace character) compared against its own reversal. -/
def is_palindrome (value : String) : Bool :=
  let s := (value.data.filter (fun c => !pyIsSpace c)).map Char.toLower
  s == s.reverse

/-- One step of the dict-building loop `freq[ch] = freq.get(ch, 0) + 1`:
an existing key has its count bumped in place, a new key is appended at the
end (Python dicts preserve insertion order). -/
def bumpChar (freq : List (Char × Nat)) (c : Char) : List (Char × Nat) :=
  if freq.any (fun p => p.1 == c) then
    freq.map (fun p => if p.1 == c then (p.1, p.2 + 1) else p)
  else freq ++ [(c, 1)]

/-- `character_frequency_map` from `main.py`, as an insertion-ordered
association list. -/
def character_frequency_map (value : String) : List (Char × Nat) :=
  value.data.foldl bumpChar []

/-- The derived properties stored with a record. -/
structure PropertySet where
  length : Nat
  is_palindrome : Bool
  unique_characters : Nat
  word_count : Nat
  sha256_hash : String
  character_frequency_map : List (Char × Nat)
deriving Repr, DecidableEq

/-- `analyze_string` from `main.py`.  The Lean embedding is a total function on
`String` (the Python `ValueError` branch guards a non-string argument, which
the type rules out). -/
def analyze_string (value : String) : PropertySet :=
  { length := value.length
    is_palindrome := is_palindrome value
    unique_characters := value.data.toFinset.card
    word_count := if pyStrip value = "" then 0 else (pySplit value).length
    sha256_hash := sha256_hash value
    character_frequency_map := character_frequency_map value }

/-! ### Record store (the SQLite table `strings`, keyed by the primary key `id`) -/

/-- One row of the `strings` table. -/
structure StringRecord where
  id : String
  value : String
  properties : PropertySet
  created_at : String
deriving Repr, DecidableEq

/-- The table contents.  `json.dumps`/`json.loads` round-trip the properties,
so rows keep the `PropertySet` directly. -/
abbrev Store := List StringRecord

/-- `SELECT ... FROM strings WHERE id = ?` returning at most one row. -/
def dbGet (sid : String) (st : Store) : Option StringRecord :=
  st.find? (fun r => r.id == sid)

/-- `create_string` (`POST /strings`): analyze, derive the id from the hash,
409 the duplicate without writing, otherwise insert the new row.  The
timestamp `datetime.now` is an external input, passed in as `created_at`.
An error leaves the table unchanged (the exception aborts the transaction). -/
def create_string (value : String) (created_at : String) (st : Store) :
    Except Nat StringRecord × Store :=
  let props := analyze_string value
  let sid := props.sha256_hash
  let payload : StringRecord :=
    { id := sid, value := value, properties := props, created_at := created_at }
  match dbGet sid st with
  | some _ => (Except.error 409, st)
  | none => (Except.ok payload, st ++ [payload])

/-- `get_string` (`GET /strings/{string_value}`): look up by the hash of the
path value; 404 when absent. -/
def get_string (string_value : String) (st : Store) : Except Nat StringRecord :=
  let sid := sha256_hash string_value
  match dbGet sid st with
  | some row => Except.ok row
  | none => Except.error 404

/-- `delete_string` (`DELETE /strings/{string_value}`): `DELETE ... WHERE id = ?`;
404 when `rowcount == 0` (nothing deleted, so the table is unchanged either way
on the error path). -/
def delete_string (string_value : String) (st : Store) : Except Nat Unit × Store :=
  let sid := sha256_hash string_value
  let remaining := st.filter (fun r => !(r.id == sid))
  let rowcount := st.length - remaining.length
  if rowcount = 0 then (Except.error 404, st) else (Except.ok (), remaining)

/-! ### Filter engine -/

/-- The sparse filter dictionary built by `list_strings` / `filter_by_nl`.
`contains_character` keeps the raw string value, as the Python dict does. -/
structure FilterSet where
  is_palindrome : Option Bool := none
  min_length : Option Nat := none
  max_length : Option Nat := none
  word_count : Option Nat := none
  contains_character : Option String := none
deriving Repr, DecidableEq

/-- `apply_filters_row` from `main.py`: each present filter must pass; a
`contains_character` value that is not exactly one character fails the row. -/
def apply_filters_row (props : PropertySet) (filters : FilterSet) : Bool :=
  (match filters.is_palindrome with
   | some b => props.is_palindrome == b
   | none => true) &&
  (match filters.min_length with
   | some m => !(props.length < m)
   | none => true) &&
  (match filters.max_length with
   | some m => !(props.length > m)
   | none => true) &&
  (match filters.word_count with
   | some w => props.word_count == w
   | none => true) &&
  (match filters.contains_character with
   | some s =>
     match s.data with
     | [c] => props.character_frequency_map.any (fun p => p.1 == c)
     | _ => false
   | none => true)

/-- The declarative validation FastAPI performs on the `contains_character`
query parameter of `list_strings` (`Query(None, min_length=1, max_length=1)`):
a present value that is not exactly one character is rejected with a 422
client error before the handler runs. -/
def list_strings_validate (contains_character : Option String) : Bool :=
  match contains_character with
  | none => true
  | some s => 1 ≤ s.length && s.length ≤ 1

/-! ### Natural-language interpreter (`filter_by_nl`) -/

/-- Python's substring test `pat in l`. -/
def strContains (pat : List Char) : List Char → Bool
  | [] => pat.isEmpty
  | c :: rest => pat.isPrefixOf (c :: rest) || strContains pat rest

/-- `int()` on a run of ASCII digits. -/
def natOfDigits (ds : List Char) : Nat :=
  ds.foldl (fun n c => n * 10 + (c.toNat - 48)) 0

/-- `re.search` for a literal pattern followed by `(\d+)`: the leftmost
position where the literal occurs immediately followed by at least one digit;
the capture is the maximal digit run there. -/
def searchNumAfter (pat : List Char) : List Char → Option Nat
  | [] => none
  | c :: rest =>
    if pat.isPrefixOf (c :: rest) then
      let ds := ((c :: rest).drop pat.length).takeWhile Char.isDigit
      if ds.isEmpty then searchNumAfter pat rest else some (natOfDigits ds)
    else searchNumAfter pat rest

def isAsciiLower (c : Char) : Bool :=
  97 ≤ c.toNat && c.toNat ≤ 122

/-- One alternative of `contain(?:ing|s)?`: after the optional `mid`, the
literal `" the letter "` must follow, then one captured lowercase letter. -/
def letterAfterMid (t : List Char) (mid : List Char) : Option Char :=
  if mid.isPrefixOf t then
    let u := t.drop mid.length
    if (" the letter ".data).isPrefixOf u then
      match (u.drop 12).head? with
      | some c => if isAsciiLower c then some c else none
      | none => none
    else none
  else none

/-- `contain(?:ing|s)? the letter ([a-z])` anchored at the current position,
trying the alternatives in the regex engine's order: `ing`, `s`, empty. -/
def containLetterAt (l : List Char) : Option Char :=
  if ("contain".data).isPrefixOf l then
    let t := l.drop 7
    (letterAfterMid t "ing".data).orElse fun _ =>
      (letterAfterMid t "s".data).orElse fun _ =>
        letterAfterMid t []
  else none

/-- `re.search` for the contains-letter pattern: leftmost match wins. -/
def searchLetterAfterContain : List Char → Option Char
  | [] => none
  | c :: rest =>
    match containLetterAt (c :: rest) with
    | some x => some x
    | none => searchLetterAfterContain rest

/-- `query.lower().strip()` performed at the top of `filter_by_nl`. -/
def nlNormalize (query : String) : String :=
  pyStrip (pyLower query)

/-- The parsing portion of `filter_by_nl`: the five heuristic rules applied in
source order to the lowercased, stripped query.  A total function — it returns
an empty `FilterSet` when no rule fires.  Note the bare `longer than N` rule
stores `N + 0` while the later `strings longer than N` rule overwrites with
`N + 1`. -/
def parse (query : String) : FilterSet :=
  let q := (nlNormalize query).data
  let parsed : FilterSet := {}
  let parsed := if strContains "single word".data q || strContains "one word".data q then
      { parsed with word_count := some 1 } else parsed
  let parsed := if strContains "palindrom".data q then
      { parsed with is_palindrome := some true } else parsed
  let parsed := match searchNumAfter "longer than ".data q with
    | some n => { parsed with min_length := some (n + 0) }
    | none => parsed
  let parsed := match searchNumAfter "strings longer than ".data q with
    | some n => { parsed with min_length := some (n + 1) }
    | none => parsed
  let parsed := match searchLetterAfterContain q with
    | some c => { parsed with contains_character := some ⟨[c]⟩ }
    | none => parsed
  parsed

/-- Python's emptiness test `if not parsed` on the filter dict. -/
def filterSetIsEmpty (f : FilterSet) : Bool :=
  f.is_palindrome.isNone && f.min_length.isNone && f.max_length.isNone &&
  f.word_count.isNone && f.contains_character.isNone

/-- `filter_by_nl` (`GET /strings/filter-by-natural-language`): 400 when no
rule fired, otherwise the parsed filters and the matching rows. -/
def filter_by_nl (query : String) (st : Store) :
    Except Nat (FilterSet × List StringRecord) :=
  let parsed := parse query
  if filterSetIsEmpty parsed then Except.error 400
  else Except.ok (parsed, st.filter (fun r => apply_filters_row r.properties parsed))

/-! ### Helper lemmas about the store -/

theorem analyze_string_sha (s : String) :
    (analyze_string s).sha256_hash = sha256_hash s := rfl

theorem dbGet_nil (sid : String) : dbGet sid [] = none := rfl

theorem dbGet_append_right (sid : String) (st l : Store)
    (h : dbGet sid st = none) : dbGet sid (st ++ l) = dbGet sid l := by
  simp only [dbGet] at h ⊢
  rw [List.find?_append, h, Option.none_or]

theorem dbGet_singleton_self (sid : String) (r : StringRecord) (h : r.id = sid) :
    dbGet sid [r] = some r := by
  simp [dbGet, List.find?, h]

theorem filter_ne_id_of_dbGet_none (sid : String) (st : Store)
    (h : dbGet sid st = none) :
    st.filter (fun r => !(r.id == sid)) = st := by
  rw [List.filter_eq_self]
  intro r hr
  have hne := List.find?_eq_none.mp h r hr
  simpa using hne

/-! ### Claim theorems -/

/-- C1: creating a record whose derived id (the SHA-256 hash of the value)
already exists fails with Conflict (409) and performs no write: for every
string `s`, the second of two consecutive `create_string s` calls returns 409
and leaves the store exactly as the first call left it, whatever the starting
store was. -/
theorem create_string_duplicate_conflict (s t1 t2 : String) (st : Store) :
    create_string s t2 (create_string s t1 st).2 =
      (Except.error 409, (create_string s t1 st).2) := by
  simp only [create_string]
  cases h : dbGet (analyze_string s).sha256_hash st with
  | some r => simp [h]
  | none =>
    have h2 : dbGet (analyze_string s).sha256_hash
        (st ++ [{ id := (analyze_string s).sha256_hash, value := s,
                  properties := analyze_string s, created_at := t1 }]) =
        some { id := (analyze_string s).sha256_hash, value := s,
               properties := analyze_string s, created_at := t1 } := by
      rw [dbGet_append_right _ _ _ h]
      exact dbGet_singleton_self _ _ rfl
    simp [h, h2]

/-- C2: after a successful `create_string s`, a `get_string` lookup keyed by
the same value (hence the same hash derivation) returns a record whose
`properties` equals `analyze_string s`. -/
theorem create_then_get_roundtrip (s t : String) (st : Store)
    (h : dbGet (sha256_hash s) st = none) :
    ∃ r : StringRecord,
      get_string s (create_string s t st).2 = Except.ok r ∧
      r.properties = analyze_string s := by
  refine ⟨{ id := (analyze_string s).sha256_hash, value := s,
            properties := analyze_string s, created_at := t }, ?_, rfl⟩
  have h' : dbGet (analyze_string s).sha256_hash st = none := h
  simp only [create_string, get_string, h']
  rw [dbGet_append_right _ _ _ h]
  rw [dbGet_singleton_self (sha256_hash s)
    { id := (analyze_string s).sha256_hash, value := s,
      properties := analyze_string s, created_at := t } rfl]

/-- C2 witness at `s = "a"` over the empty store. -/
theorem create_then_get_roundtrip_witness :
    ∃ r : StringRecord,
      get_string "a" (create_string "a" "2026-10-12T00:00:00+00:00" []).2 =
        Except.ok r ∧
      r.properties = analyze_string "a" :=
  create_then_get_roundtrip "a" "2026-10-12T00:00:00+00:00" [] rfl

/-- C9: deleting right after a successful create returns success (the 204
path), after which the lookup returns 404; deleting again returns 404 and
leaves the store unchanged. -/
theorem delete_after_create (s t : String) (st : Store)
    (h : dbGet (sha256_hash s) st = none) :
    (delete_string s (create_string s t st).2).1 = Except.ok () ∧
    get_string s (delete_string s (create_string s t st).2).2 =
      Except.error 404 ∧
    delete_string s (delete_string s (create_string s t st).2).2 =
      (Except.error 404, (delete_string s (create_string s t st).2).2) := by
  have h' : dbGet (analyze_string s).sha256_hash st = none := h
  have hfilter : st.filter (fun r => !(r.id == sha256_hash s)) = st :=
    filter_ne_id_of_dbGet_none _ _ h
  have hcreate : (create_string s t st).2 =
      st ++ [{ id := (analyze_string s).sha256_hash, value := s,
               properties := analyze_string s, created_at := t }] := by
    simp [create_string, h']
  have hfil2 : ((create_string s t st).2).filter
      (fun r => !(r.id == sha256_hash s)) = st := by
    rw [hcreate, List.filter_append, hfilter]
    simp [analyze_string_sha]
  have hdel1 : delete_string s (create_string s t st).2 = (Except.ok (), st) := by
    simp only [delete_string, hfil2]
    rw [hcreate, if_neg (by simp [List.length_append])]
  refine ⟨by rw [hdel1], ?_, ?_⟩
  · rw [hdel1]
    simp [get_string, h]
  · rw [hdel1]
    simp only [delete_string, hfilter]
    rw [if_pos (by simp)]

/-- C9 witness at `s = "a"` over the empty store. -/
theorem delete_after_create_witness :
    (delete_string "a" (create_string "a" "t0" []).2).1 = Except.ok () ∧
    get_string "a" (delete_string "a" (create_string "a" "t0" []).2).2 =
      Except.error 404 ∧
    delete_string "a" (delete_string "a" (create_string "a" "t0" []).2).2 =
      (Except.error 404, (delete_string "a" (create_string "a" "t0" []).2).2) :=
  delete_after_create "a" "t0" [] rfl

/-- The palindrome computation as the spec words it: strip all whitespace
characters, lowercase, compare the result with its own reversal.  Stated
separately from the source translation so the two can be compared. -/
def isPalindromeSpec (value : String) : Bool :=
  let stripped := value.data.filter (fun c => !pyIsSpace c)
  let lowered := stripped.map Char.toLower
  lowered == lowered.reverse

/-- C4: the analyzer is a total pure function of the input string (it is a
Lean function, and the `ValueError` branch guards an argument the type rules
out), and on the empty string it yields length 0, word count 0, zero unique
characters and palindrome true. -/
theorem analyze_empty_string :
    (analyze_string "").length = 0 ∧ (analyze_string "").word_count = 0 ∧
    (analyze_string "").unique_characters = 0 ∧
    (analyze_string "").is_palindrome = true := by
  decide

/-- C5 (amended): `is_palindrome` strips all whitespace characters, lowercases
and compares with the reversal, and a string that is empty after stripping is
a palindrome; but `"A man a man"` is not a palindrome under this computation
(its stripped lowercase form `"amanaman"` differs from the reversal
`"namanama"`). -/
theorem is_palindrome_rules :
    (∀ s : String, is_palindrome s = isPalindromeSpec s) ∧
    (∀ s : String, s.data.filter (fun c => !pyIsSpace c) = [] →
      is_palindrome s = true) ∧
    is_palindrome "A man a man" = false := by
  refine ⟨fun s => rfl, fun s h => ?_, by decide⟩
  simp [is_palindrome, h]

/-- C5 witness: a whitespace-only string is a palindrome. -/
theorem is_palindrome_rules_witness : is_palindrome " " = true :=
  is_palindrome_rules.2.1 " " (by decide)

/-- C5 counterexample: the claim calls `"A man a man"` a palindrome, but the
computation returns false on it. -/
theorem is_palindrome_counterexample : is_palindrome "A man a man" = false := by
  decide

/-- C6: a filter whose `min_length` exceeds its `max_length` matches no
record: whatever the record's properties, `apply_filters_row` returns false. -/
theorem contradictory_bounds_never_match (props : PropertySet) (f : FilterSet)
    (m M : Nat) (h1 : f.min_length = some m) (h2 : f.max_length = some M)
    (h3 : M < m) : apply_filters_row props f = false := by
  simp only [apply_filters_row, h1, h2]
  by_cases hl : props.length < m
  · simp [hl]
  · have hg : props.length > M := by omega
    simp [hl, hg]

/-- C6 witness: the spec's `{min_length: 5, max_length: 3}` filter rejects a
concrete record. -/
theorem contradictory_bounds_never_match_witness :
    apply_filters_row ⟨5, false, 4, 1, "", [('a', 1)]⟩
      { min_length := some 5, max_length := some 3 } = false :=
  contradictory_bounds_never_match _ _ 5 3 rfl rfl (by decide)

/-- C7: a `contains_character` value that is not exactly one character is
rejected as a client input error by the endpoint's declarative validation
(422), and the filter engine never silently ignores such a value: a filter
set carrying it matches no record at all. -/
theorem contains_character_validated (s : String) (h : s.length ≠ 1) :
    list_strings_validate (some s) = false ∧
    ∀ (props : PropertySet) (f : FilterSet),
      f.contains_character = some s → apply_filters_row props f = false := by
  constructor
  · simp [list_strings_validate]
    omega
  · intro props f hf
    have h' : s.data.length ≠ 1 := h
    simp only [apply_filters_row, hf]
    cases hd : s.data with
    | nil => simp
    | cons c tail =>
      rw [hd] at h'
      cases tail with
      | nil => simp at h'
      | cons d tail2 => simp

/-- C7 witness at the two-character value `"ab"`. -/
theorem contains_character_validated_witness :
    list_strings_validate (some "ab") = false ∧
    apply_filters_row ⟨2, false, 2, 1, "", [('a', 1), ('b', 1)]⟩
      { contains_character := some "ab" } = false :=
  ⟨(contains_character_validated "ab" (by decide)).1,
   (contains_character_validated "ab" (by decide)).2 _ _ rfl⟩

/-- C8: the parser is a total function (a query that matches no rule yields
the empty `FilterSet`, never an exception), and the caller turns an empty
parse into the 400 `Unparseable` client error; in particular `"banana"`
parses to the empty `FilterSet`. -/
theorem parse_unparseable_reports_400 (q : String) (st : Store)
    (h : filterSetIsEmpty (parse q) = true) :
    filter_by_nl q st = Except.error 400 ∧ parse "banana" = ({} : FilterSet) := by
  refine ⟨?_, by decide⟩
  simp [filter_by_nl, h]

/-- C8 witness: the query `"banana"` over the empty store. -/
theorem parse_unparseable_reports_400_witness :
    filter_by_nl "banana" [] = Except.error 400 ∧
    parse "banana" = ({} : FilterSet) :=
  parse_unparseable_reports_400 "banana" [] (by decide)

/-- C3 (amended): a query matching `strings longer than N` gets
`min_length = N + 1`; a query matching `longer than N` but not the
`strings `-prefixed form gets `min_length = N` (the bare rule adds 0; only
the `strings longer than N` rule adds 1, overwriting it). -/
theorem longer_than_min_length (query : String) (n m : Nat) :
    (searchNumAfter "strings longer than ".data (nlNormalize query).data =
        some m → (parse query).min_length = some (m + 1)) ∧
    (searchNumAfter "strings longer than ".data (nlNormalize query).data =
        none →
     searchNumAfter "longer than ".data (nlNormalize query).data = some n →
      (parse query).min_length = some n) := by
  constructor
  · intro h
    simp only [parse, h]
    cases searchLetterAfterContain (nlNormalize query).data <;> simp
  · intro h1 h2
    simp only [parse, h1, h2]
    cases searchLetterAfterContain (nlNormalize query).data <;> simp

/-- C3 witness: `parse "strings longer than 10"` yields `min_length = 11`. -/
theorem longer_than_min_length_witness :
    (parse "strings longer than 10").min_length = some 11 :=
  (longer_than_min_length "strings longer than 10" 0 10).1 (by decide)

/-- C3 counterexample: the claim demands `min_length = N + 1` for every query
matching `longer than N`, but `parse "longer than 10"` stores 10, not 11. -/
theorem longer_than_counterexample :
    (parse "longer than 10").min_length ≠ some 11 := by
  decide

/-! ### Frequency-map invariants -/

/-- The keys of a frequency map, in insertion order. -/
def freqKeys (f : List (Char × Nat)) : List Char := f.map Prod.fst

/-- The total of all counts in a frequency map. -/
def freqTotal (f : List (Char × Nat)) : Nat := (f.map Prod.snd).sum

theorem any_key_iff_mem (f : List (Char × Nat)) (c : Char) :
    f.any (fun p => p.1 == c) = true ↔ c ∈ freqKeys f := by
  simp only [freqKeys, List.any_eq_true, List.mem_map, beq_iff_eq]

theorem bump_map_id (c : Char) (t : List (Char × Nat))
    (h : ∀ q ∈ t, (q.1 == c) = false) :
    t.map (fun p => if p.1 == c then (p.1, p.2 + 1) else p) = t := by
  induction t with
  | nil => rfl
  | cons q t ih =>
    have hq := h q (List.mem_cons_self q t)
    rw [List.map_cons, if_neg (by simp [hq]),
      ih (fun x hx => h x (List.mem_cons_of_mem _ hx))]

theorem freqTotal_map_bump (c : Char) (f : List (Char × Nat))
    (hnd : (freqKeys f).Nodup) (hany : f.any (fun p => p.1 == c) = true) :
    freqTotal (f.map (fun p => if p.1 == c then (p.1, p.2 + 1) else p)) =
      freqTotal f + 1 := by
  induction f with
  | nil => simp at hany
  | cons p t ih =>
    rw [freqKeys, List.map_cons, List.nodup_cons] at hnd
    cases hpc : p.1 == c with
    | true =>
      have hc : p.1 = c := by simpa using hpc
      have ht : ∀ q ∈ t, (q.1 == c) = false := by
        intro q hq
        cases hqc : q.1 == c with
        | false => rfl
        | true =>
          exfalso
          apply hnd.1
          have : q.1 = c := by simpa using hqc
          rw [hc, ← this]
          exact List.mem_map_of_mem Prod.fst hq
      rw [List.map_cons, if_pos hpc, bump_map_id c t ht]
      simp only [freqTotal, List.map_cons, List.sum_cons]
      omega
    | false =>
      have hanyt : t.any (fun q => q.1 == c) = true := by
        rw [List.any_cons, hpc] at hany
        simpa using hany
      rw [List.map_cons, if_neg (by simp [hpc])]
      have := ih hnd.2 hanyt
      simp only [freqTotal, List.map_cons, List.sum_cons] at this ⊢
      omega

theorem freqTotal_bump (f : List (Char × Nat)) (c : Char)
    (hnd : (freqKeys f).Nodup) :
    freqTotal (bumpChar f c) = freqTotal f + 1 := by
  unfold bumpChar
  by_cases hany : f.any (fun p => p.1 == c) = true
  · rw [if_pos hany]
    exact freqTotal_map_bump c f hnd hany
  · rw [if_neg hany]
    simp [freqTotal, List.map_append]

theorem freqKeys_bump (f : List (Char × Nat)) (c : Char) :
    freqKeys (bumpChar f c) =
      if f.any (fun p => p.1 == c) then freqKeys f else freqKeys f ++ [c] := by
  unfold bumpChar
  by_cases hany : f.any (fun p => p.1 == c) = true
  · rw [if_pos hany, if_pos hany]
    simp only [freqKeys, List.map_map]
    apply List.map_congr_left
    intro p _
    cases hpc : p.1 == c <;> simp [Function.comp, hpc]
  · rw [if_neg hany, if_neg hany]
    simp [freqKeys]

theorem freq_foldl_invariant (l : List Char) (acc : List (Char × Nat))
    (hnd : (freqKeys acc).Nodup) :
    (freqKeys (l.foldl bumpChar acc)).Nodup ∧
    freqTotal (l.foldl bumpChar acc) = freqTotal acc + l.length ∧
    (freqKeys (l.foldl bumpChar acc)).toFinset =
      (freqKeys acc).toFinset ∪ l.toFinset := by
  induction l generalizing acc with
  | nil => simp [hnd]
  | cons c t ih =>
    have hk := freqKeys_bump acc c
    have hnd' : (freqKeys (bumpChar acc c)).Nodup := by
      rw [hk]
      by_cases hany : acc.any (fun p => p.1 == c) = true
      · rw [if_pos hany]
        exact hnd
      · rw [if_neg hany]
        have hcn : c ∉ freqKeys acc := fun hc =>
          hany ((any_key_iff_mem acc c).mpr hc)
        simp [List.nodup_append, hnd, hcn]
    have hkf : (freqKeys (bumpChar acc c)).toFinset =
        (freqKeys acc).toFinset ∪ {c} := by
      rw [hk]
      by_cases hany : acc.any (fun p => p.1 == c) = true
      · rw [if_pos hany]
        have hc : c ∈ freqKeys acc := (any_key_iff_mem acc c).mp hany
        ext x
        simp only [List.mem_toFinset, Finset.mem_union, Finset.mem_singleton]
        constructor
        · exact fun hx => Or.inl hx
        · rintro (hx | rfl)
          · exact hx
          · exact hc
      · rw [if_neg hany]
        ext x
        simp [List.mem_toFinset]
    obtain ⟨ih1, ih2, ih3⟩ := ih (bumpChar acc c) hnd'
    refine ⟨by simpa using ih1, ?_, ?_⟩
    · rw [List.foldl_cons] at *
      rw [ih2, freqTotal_bump acc c hnd, List.length_cons]
      omega
    · rw [List.foldl_cons] at *
      rw [ih3, hkf, List.toFinset_cons]
      ext x
      simp only [Finset.mem_union, Finset.mem_singleton, Finset.mem_insert,
        List.mem_toFinset]
      tauto

/-- C10: for every string `s`, the sum of the counts in the character
frequency map equals the `length` property, and the number of keys equals the
`unique_characters` property. -/
theorem character_frequency_invariants (s : String) :
    freqTotal (analyze_string s).character_frequency_map =
      (analyze_string s).length ∧
    (freqKeys (analyze_string s).character_frequency_map).length =
      (analyze_string s).unique_characters := by
  obtain ⟨h1, h2, h3⟩ :=
    freq_foldl_invariant s.data [] (by simp [freqKeys])
  have hmap : (analyze_string s).character_frequency_map =
      s.data.foldl bumpChar [] := rfl
  have hlen : (analyze_string s).length = s.data.length := rfl
  have huniq : (analyze_string s).unique_characters = s.data.toFinset.card := rfl
  constructor
  · rw [hmap, hlen, h2]
    simp [freqTotal]
  · rw [hmap, huniq]
    calc (freqKeys (s.data.foldl bumpChar [])).length
        = (freqKeys (s.data.foldl bumpChar [])).dedup.length := by
          rw [h1.dedup]
      _ = (freqKeys (s.data.foldl bumpChar [])).toFinset.card :=
          (List.card_toFinset _).symm
      _ = s.data.toFinset.card := by
          rw [h3]
          simp [freqKeys]

end StringAnalyzer
